import Mathlib

/-! # Verification of the sanic-agent validation core

Shallow embedding of the schema-driven validation engine found in
`sanic_agent/rest/httpx/request.py` (class `ParseModel`) and
`sanic_agent/core/model/base_model.py` (class `BaseModelPydantic`).

Dynamic Python values are modelled by the inductive type `Value`; Python
dictionaries by association lists with first-match lookup (`dictGet`) and
overwrite-or-append assignment (`dictInsert`), which is the observable
behaviour of dictionary indexing and assignment.
-/

namespace SanicAgent

/-- Dynamic runtime value. `vUndef` models the pydantic sentinel
`PydanticUndefined` (field not supplied), `vNone` models Python `None`. -/
inductive Value where
  | vUndef : Value
  | vNone : Value
  | vStr : String → Value
  | vInt : Int → Value
  | vBool : Bool → Value
deriving DecidableEq

/-- Closed set of declared semantic type kinds for fields. -/
inductive TypeTag where
  | tStr : TypeTag
  | tInt : TypeTag
  | tBool : TypeTag
deriving DecidableEq

/-- Keyword-argument mapping, as passed to validators. -/
abbrev Args := List (String × Value)

/-- Python dictionary read `d.get(k)`: first entry with the given key. -/
def dictGet {α : Type} (l : List (String × α)) (k : String) : Option α :=
  match l with
  | [] => none
  | p :: rest => if p.1 = k then some p.2 else dictGet rest k

/-- Python dictionary write `d[k] = v`: overwrite the entry when the key is
present, append it otherwise. -/
def dictInsert {α : Type} (l : List (String × α)) (k : String) (v : α) :
    List (String × α) :=
  if (dictGet l k).isSome then
    l.map (fun p => if p.1 = k then (k, v) else p)
  else l ++ [(k, v)]

/-- The `json_schema_extra` metadata dictionary attached to a field. Only the
keys read by the source are modelled; a missing key is `none` (resp. the
empty table for `error_messages`). -/
structure JsonSchemaExtra where
  validator : Option String := none
  validator_args : Option Args := none
  error_messages : List (String × String) := []
deriving DecidableEq

/-- Static description of one model field (pydantic `FieldInfo`), as read by
the source: declared type kind, whether the annotation is Optional, the
declared default (`vUndef` when the field is required, matching the pydantic
`PydanticUndefined` default), and the extra metadata. -/
structure FieldInfo where
  typeTag : TypeTag
  isOptional : Bool := false
  default : Value := Value.vUndef
  json_schema_extra : Option JsonSchemaExtra := none
deriving DecidableEq

/-- A model class: its `model_fields` table, in declaration order. -/
structure Schema where
  fields : List (String × FieldInfo)
deriving DecidableEq

/-- A custom validator callable: receives the value and the merged keyword
arguments; either returns the (possibly transformed) value or raises
`ValueError` with a message. -/
abbrev ValidatorFn := Value → Args → Except String Value

/-- The class-level `_validators_registry`: name to (function, default args). -/
abbrev Registry := List (String × (ValidatorFn × Args))

/-- A constructed model instance: its class schema and its field values. -/
structure ModelInstance where
  schema : Schema
  values : List (String × Value)
deriving DecidableEq

/-- `ParseModel.register_validator`: store `(validator, kwargs)` under `name`. -/
def register_validator (reg : Registry) (name : String) (validator : ValidatorFn)
    (kwargs : Args) : Registry :=
  dictInsert reg name (validator, kwargs)

/-- The Python double-splat dictionary merge of default and override
arguments: every key of `default_args`, overwritten by any key present in
`extra_args`, followed by the keys found only in `extra_args`. -/
def mergeArgs (default_args extra_args : Args) : Args :=
  default_args.map (fun p => (p.1, (dictGet extra_args p.1).getD p.2)) ++
    extra_args.filter (fun p => (dictGet default_args p.1).isNone)

/-- `ParseModel.apply_custom_validators`, the before-mode field validator of
the source: dispatch the custom validator attached to a field, if any. The
keyword binding done in the source with a partially applied function is
modelled by passing the merged argument list to the callable. -/
def apply_custom_validators (reg : Registry) (field_info : FieldInfo)
    (value : Value) : Except String Value :=
  match field_info.json_schema_extra with
  | none => Except.ok value
  | some extra =>
    match extra.validator with
    | none => Except.ok value
    | some validator_name =>
      match dictGet reg validator_name with
      | none => Except.ok value
      | some (validator, default_args) =>
        let combined_args :=
          mergeArgs default_args (extra.validator_args.getD [])
        if value = Value.vUndef ∨ value = Value.vNone then Except.ok value
        else validator value combined_args

/-- One pydantic error record, restricted to the keys the source reads and
writes: location, message, error type and context. A missing `ctx` key is
modelled as the empty mapping, matching the `error.get` call of the source. -/
structure ErrorDetails where
  loc : List String
  msg : String
  type : String
  ctx : List (String × Value)
deriving DecidableEq

/-- The custom message the source looks up for one error: the entry of the
`error_messages` table of the field named by the first location segment
(the name `unknown` when the location is empty), keyed by the error type. -/
def customMessageFor (fields : List (String × FieldInfo))
    (error : ErrorDetails) : Option String :=
  match dictGet fields (match error.loc with | [] => "unknown" | n :: _ => n) with
  | none => none
  | some field_info =>
    match field_info.json_schema_extra with
    | none => none
    | some extra => dictGet extra.error_messages error.type

/-- Loop body of `ParseModel.customize_errors`: replace the message when a
custom one is configured. The Python truthiness guard on the custom message
is falsy for the empty string, so an empty custom message leaves the error
as generated. -/
def customize_error (fields : List (String × FieldInfo)) (error : ErrorDetails) :
    ErrorDetails :=
  match customMessageFor fields error with
  | some m =>
    if m = "" then error
    else { loc := error.loc, msg := m, type := error.type, ctx := error.ctx }
  | none => error

/-- `ParseModel.customize_errors`: rewrite every raw error in order. -/
def customize_errors (fields : List (String × FieldInfo))
    (errors : List ErrorDetails) : List ErrorDetails :=
  errors.map (customize_error fields)

/-- Whether a value inhabits a declared type kind. -/
def matchesTag : TypeTag → Value → Bool
  | TypeTag.tStr, Value.vStr _ => true
  | TypeTag.tInt, Value.vInt _ => true
  | TypeTag.tBool, Value.vBool _ => true
  | _, _ => false

/-- The pydantic error kind for a failed coercion to a declared type. -/
def typeErrorKind : TypeTag → String
  | TypeTag.tStr => "string_type"
  | TypeTag.tInt => "int_type"
  | TypeTag.tBool => "bool_type"

/-- Modelled from the spec: the underlying pydantic per-field validation
step, an external collaborator of this repository, described in the spec as
a given capability: coerce the raw value to the declared type or fail with a
type-mismatch detail; an absent field takes the declared default, or yields
a required-field failure. The attached before-validator
`apply_custom_validators` from the source runs on supplied values before
coercion; a `ValueError` it raises becomes a `value_error` record. -/
def validateField (reg : Registry) (name : String) (field_info : FieldInfo)
    (input : List (String × Value)) : Except ErrorDetails Value :=
  match dictGet input name with
  | some raw =>
    match apply_custom_validators reg field_info raw with
    | Except.error m =>
      Except.error { loc := [name], msg := m, type := "value_error",
                     ctx := [("error", Value.vStr m)] }
    | Except.ok v =>
      if field_info.isOptional ∧ v = Value.vNone then Except.ok v
      else if matchesTag field_info.typeTag v then Except.ok v
      else Except.error { loc := [name], msg := "type mismatch",
                          type := typeErrorKind field_info.typeTag, ctx := [] }
  | none =>
    if field_info.default = Value.vUndef then
      Except.error { loc := [name], msg := "Field required", type := "missing",
                     ctx := [] }
    else Except.ok field_info.default

/-- Extract the failure of one per-field result. -/
def errOf (p : String × Except ErrorDetails Value) : Option ErrorDetails :=
  match p.2 with
  | Except.error e => some e
  | Except.ok _ => none

/-- Extract the successful value of one per-field result, keyed by name. -/
def okOf (p : String × Except ErrorDetails Value) : Option (String × Value) :=
  match p.2 with
  | Except.ok v => some (p.1, v)
  | Except.error _ => none

/-- Per-field results of one construction attempt, in declaration order. -/
def fieldResults (reg : Registry) (schema : Schema)
    (obj : List (String × Value)) : List (String × Except ErrorDetails Value) :=
  schema.fields.map (fun p => (p.1, validateField reg p.1 p.2 obj))

/-- All raw per-field failures of one construction attempt. -/
def rawErrors (reg : Registry) (schema : Schema)
    (obj : List (String × Value)) : List ErrorDetails :=
  (fieldResults reg schema obj).filterMap errOf

/-- The successful field values of one construction attempt. -/
def okValues (reg : Registry) (schema : Schema)
    (obj : List (String × Value)) : List (String × Value) :=
  (fieldResults reg schema obj).filterMap okOf

/-- Whether a field fails validation against the given input. -/
def failsOn (reg : Registry) (input : List (String × Value))
    (p : String × FieldInfo) : Bool :=
  match validateField reg p.1 p.2 input with
  | Except.error _ => true
  | Except.ok _ => false

/-- `ParseModel.model_validate`: run the underlying validation; on failure
rewrite the aggregated error batch with `customize_errors` and re-raise it
as one `ValidationError` carrying all of the rewritten records. -/
def model_validate (reg : Registry) (schema : Schema)
    (obj : List (String × Value)) : Except (List ErrorDetails) ModelInstance :=
  if (rawErrors reg schema obj).isEmpty then
    Except.ok { schema := schema, values := okValues reg schema obj }
  else
    Except.error (customize_errors schema.fields (rawErrors reg schema obj))

/-- `BaseModelPydantic.from_data`: validate the given data, or the empty
mapping when no data is supplied. -/
def from_data (reg : Registry) (schema : Schema)
    (data : Option (List (String × Value))) :
    Except (List ErrorDetails) ModelInstance :=
  model_validate reg schema (data.getD [])

/-- `BaseModelPydantic.to_dict`: dump every field in declaration order. -/
def to_dict (inst : ModelInstance) : List (String × Value) :=
  inst.values

/-- `BaseModelPydantic.__setitem__`: reject a name outside `model_fields`
with `KeyError`, otherwise assign the attribute. Assignment does not
re-validate: neither the registry nor the attached validators are consulted
(they are not even parameters of this operation). -/
def setitem (inst : ModelInstance) (name : String) (value : Value) :
    Except String ModelInstance :=
  if (dictGet inst.schema.fields name).isSome then
    Except.ok { inst with values := dictInsert inst.values name value }
  else
    Except.error ("Field " ++ name ++ " not found")

/-- `BaseModelPydantic.update`: assign every pair whose key is a model
field; pairs with other keys are skipped. -/
def update (inst : ModelInstance) (data : List (String × Value)) :
    ModelInstance :=
  data.foldl
    (fun acc p =>
      if (dictGet acc.schema.fields p.1).isSome then
        { acc with values := dictInsert acc.values p.1 p.2 }
      else acc)
    inst

/-! ## Concrete fixtures used by witnesses and counterexamples -/

/-- A validator that transforms every value into the string X. -/
def cvX : ValidatorFn := fun _ _ => Except.ok (Value.vStr "X")

def extraC1 : JsonSchemaExtra := { validator := some "cv" }

def regC1 : Registry := [("cv", (cvX, []))]

/-- A required (non optional) field with the registered validator attached. -/
def fiC1req : FieldInfo :=
  { typeTag := TypeTag.tStr, isOptional := false,
    json_schema_extra := some extraC1 }

def defaultsC2 : Args := [("a", Value.vInt 1), ("b", Value.vInt 2)]

def overridesC2 : Args := [("b", Value.vInt 3)]

def schemaC3 : Schema :=
  ⟨[("F1", { typeTag := TypeTag.tStr }), ("F2", { typeTag := TypeTag.tInt })]⟩

def batchC3 : List ErrorDetails :=
  [{ loc := ["F1"], msg := "Field required", type := "missing", ctx := [] },
   { loc := ["F2"], msg := "Field required", type := "missing", ctx := [] }]

def fieldsC4 : List (String × FieldInfo) :=
  [("F", { typeTag := TypeTag.tInt,
           json_schema_extra :=
             some { error_messages := [("int_type", "bad format")] } })]

def errC4 : ErrorDetails :=
  { loc := ["F"], msg := "orig", type := "int_type", ctx := [("x", Value.vInt 1)] }

def errC4b : ErrorDetails :=
  { loc := ["F"], msg := "orig", type := "missing", ctx := [] }

/-- A field whose custom message table maps the int type failure to the
empty string. -/
def fieldsC4empty : List (String × FieldInfo) :=
  [("F", { typeTag := TypeTag.tInt,
           json_schema_extra := some { error_messages := [("int_type", "")] } })]

def extraC5 : JsonSchemaExtra := { validator := some "ghost" }

def fiC5 : FieldInfo :=
  { typeTag := TypeTag.tStr, json_schema_extra := some extraC5 }

def fiC7 : FieldInfo := { typeTag := TypeTag.tInt, default := Value.vInt 7 }

def schemaC7 : Schema := ⟨[("F", fiC7)]⟩

def instC7 : ModelInstance := ⟨schemaC7, [("F", Value.vInt 7)]⟩

/-- A validator that increments integer values. -/
def incFn : ValidatorFn := fun v _ =>
  match v with
  | Value.vInt n => Except.ok (Value.vInt (n + 1))
  | other => Except.ok other

def regC8 : Registry := [("inc", (incFn, []))]

def schemaC8 : Schema :=
  ⟨[("F", { typeTag := TypeTag.tInt,
            json_schema_extra := some { validator := some "inc" } })]⟩

def instC8 : ModelInstance := ⟨schemaC8, [("F", Value.vInt 1)]⟩

def schemaC8w : Schema := ⟨[("F", { typeTag := TypeTag.tStr })]⟩

def instC8w : ModelInstance := ⟨schemaC8w, [("F", Value.vStr "x")]⟩

def schemaC9 : Schema :=
  ⟨[("F", { typeTag := TypeTag.tInt,
            json_schema_extra := some { validator := some "inc" } })]⟩

def instC9 : ModelInstance := ⟨schemaC9, [("F", Value.vInt 1)]⟩

def schemaC10 : Schema :=
  ⟨[("A", { typeTag := TypeTag.tInt }), ("B", { typeTag := TypeTag.tInt })]⟩

def instC10 : ModelInstance :=
  ⟨schemaC10, [("A", Value.vInt 1), ("B", Value.vInt 2)]⟩

def dataC10 : List (String × Value) := [("A", Value.vInt 9), ("Z", Value.vInt 0)]

/-! ## Dictionary lemmas -/

theorem dictGet_append_some {α : Type} {l1 l2 : List (String × α)} {k : String}
    {v : α} (h : dictGet l1 k = some v) : dictGet (l1 ++ l2) k = some v := by
  induction l1 with
  | nil => simp [dictGet] at h
  | cons p rest ih =>
    by_cases hk : p.1 = k
    · simp [dictGet, hk] at h ⊢
      exact h
    · simp only [dictGet, hk, if_false, List.cons_append] at h ⊢
      exact ih h

theorem dictGet_append_none {α : Type} {l1 l2 : List (String × α)} {k : String}
    (h : dictGet l1 k = none) : dictGet (l1 ++ l2) k = dictGet l2 k := by
  induction l1 with
  | nil => rfl
  | cons p rest ih =>
    by_cases hk : p.1 = k
    · simp [dictGet, hk] at h
    · simp only [dictGet, hk, if_false, List.cons_append] at h ⊢
      exact ih h

theorem dictGet_map_overwrite {α : Type} {k : String} {v : α} :
    ∀ l : List (String × α), (dictGet l k).isSome = true →
      dictGet (l.map (fun p => if p.1 = k then (k, v) else p)) k = some v := by
  intro l
  induction l with
  | nil => intro h; simp [dictGet] at h
  | cons p rest ih =>
    intro h
    by_cases hk : p.1 = k
    · simp [dictGet, hk]
    · simp only [dictGet, hk, if_false, List.map_cons] at h ⊢
      exact ih h

theorem dictGet_dictInsert_self {α : Type} {l : List (String × α)} {k : String}
    {v : α} : dictGet (dictInsert l k v) k = some v := by
  cases hlk : dictGet l k with
  | some w =>
    have hs : (dictGet l k).isSome = true := by rw [hlk]; rfl
    rw [dictInsert, if_pos hs]
    exact dictGet_map_overwrite l hs
  | none =>
    rw [dictInsert, if_neg (by simp [hlk])]
    rw [dictGet_append_none hlk]
    simp [dictGet]

theorem dictGet_map_overwrite_ne {α : Type} {k k2 : String} {v : α}
    (hne : k2 ≠ k) :
    ∀ l : List (String × α),
      dictGet (l.map (fun p => if p.1 = k then (k, v) else p)) k2
        = dictGet l k2 := by
  intro l
  induction l with
  | nil => rfl
  | cons p rest ih =>
    by_cases hk : p.1 = k
    · subst hk
      simp [dictGet, Ne.symm hne, ih]
    · by_cases hk2 : p.1 = k2
      · simp [dictGet, hk2, hne]
      · simp [dictGet, hk, hk2, ih]

theorem dictGet_dictInsert_ne {α : Type} {l : List (String × α)} {k k2 : String}
    {v : α} (hne : k2 ≠ k) :
    dictGet (dictInsert l k v) k2 = dictGet l k2 := by
  by_cases hs : (dictGet l k).isSome = true
  · rw [dictInsert, if_pos hs]
    exact dictGet_map_overwrite_ne hne l
  · rw [dictInsert, if_neg hs]
    cases h2 : dictGet l k2 with
    | some w => rw [dictGet_append_some h2]
    | none =>
      rw [dictGet_append_none h2]
      simp [dictGet, Ne.symm hne]

theorem dictGet_of_mem_nodup {α : Type} :
    ∀ l : List (String × α), (l.map Prod.fst).Nodup →
      ∀ p ∈ l, dictGet l p.1 = some p.2 := by
  intro l
  induction l with
  | nil => intro _ p hp; exact absurd hp (List.not_mem_nil p)
  | cons q rest ih =>
    intro hnd p hp
    simp only [List.map_cons, List.nodup_cons] at hnd
    rcases List.mem_cons.mp hp with h | h
    · subst h; simp [dictGet]
    · have hne : q.1 ≠ p.1 := by
        intro he
        exact hnd.1 (by rw [he]; exact List.mem_map_of_mem Prod.fst h)
      simp only [dictGet, hne, if_false]
      exact ih hnd.2 p h

/-! ## Pipeline lemmas -/

theorem customize_error_loc (fields : List (String × FieldInfo))
    (e : ErrorDetails) : (customize_error fields e).loc = e.loc := by
  unfold customize_error
  cases customMessageFor fields e with
  | none => rfl
  | some m => by_cases hm : m = "" <;> simp [hm]

theorem customize_errors_locs (fields : List (String × FieldInfo)) :
    ∀ errs : List ErrorDetails,
      (customize_errors fields errs).map (fun e => e.loc)
        = errs.map (fun e => e.loc) := by
  intro errs
  induction errs with
  | nil => rfl
  | cons e rest ih =>
    simp only [customize_errors, List.map_cons] at ih ⊢
    rw [customize_error_loc fields e, ih]

theorem validateField_error_loc {reg : Registry} {name : String}
    {field_info : FieldInfo} {input : List (String × Value)} {e : ErrorDetails}
    (h : validateField reg name field_info input = Except.error e) :
    e.loc = [name] := by
  cases hget : dictGet input name with
  | some raw =>
    simp only [validateField, hget] at h
    cases hv : apply_custom_validators reg field_info raw with
    | error m =>
      simp only [hv, Except.error.injEq] at h
      rw [← h]
    | ok v =>
      simp only [hv] at h
      split at h
      · exact Except.noConfusion h
      · split at h
        · exact Except.noConfusion h
        · simp only [Except.error.injEq] at h
          rw [← h]
  | none =>
    simp only [validateField, hget] at h
    split at h
    · simp only [Except.error.injEq] at h
      rw [← h]
    · exact Except.noConfusion h

theorem results_error_locs (reg : Registry) (input : List (String × Value)) :
    ∀ fs : List (String × FieldInfo),
      ((fs.map (fun p => (p.1, validateField reg p.1 p.2 input))).filterMap
          errOf).map (fun e => e.loc)
        = (fs.filter (failsOn reg input)).map (fun p => [p.1]) := by
  intro fs
  induction fs with
  | nil => rfl
  | cons p rest ih =>
    cases hr : validateField reg p.1 p.2 input with
    | ok v =>
      have hf : failsOn reg input p = false := by simp [failsOn, hr]
      simp [errOf, hr, hf]
      simpa using ih
    | error e =>
      have hf : failsOn reg input p = true := by simp [failsOn, hr]
      simp [errOf, hr, hf, validateField_error_loc hr]
      simpa using ih

theorem okValues_keys (reg : Registry) (input : List (String × Value)) :
    ∀ fs : List (String × FieldInfo),
      (fs.map (fun p => (p.1, validateField reg p.1 p.2 input))).filterMap errOf
          = [] →
      ((fs.map (fun p => (p.1, validateField reg p.1 p.2 input))).filterMap
          okOf).map Prod.fst = fs.map Prod.fst := by
  intro fs
  induction fs with
  | nil => intro _; rfl
  | cons p rest ih =>
    intro herr
    cases hr : validateField reg p.1 p.2 input with
    | error e => simp [errOf, hr] at herr
    | ok v =>
      simp only [List.map_cons, List.filterMap_cons, errOf, hr] at herr
      simp [okOf, hr]
      simpa using ih herr

theorem okValues_dictGet (reg : Registry) (input : List (String × Value)) :
    ∀ (fs : List (String × FieldInfo)) (name : String) (fi : FieldInfo)
      (v : Value),
      (fs.map (fun p => (p.1, validateField reg p.1 p.2 input))).filterMap errOf
          = [] →
      dictGet fs name = some fi →
      validateField reg name fi input = Except.ok v →
      dictGet
          ((fs.map (fun p => (p.1, validateField reg p.1 p.2 input))).filterMap
            okOf) name
        = some v := by
  intro fs
  induction fs with
  | nil => intro name fi v _ hget _; simp [dictGet] at hget
  | cons p rest ih =>
    intro name fi v herr hget hval
    cases hr : validateField reg p.1 p.2 input with
    | error e => simp [errOf, hr] at herr
    | ok w =>
      simp only [List.map_cons, List.filterMap_cons, errOf, hr] at herr
      by_cases hk : p.1 = name
      · subst hk
        have hfi : p.2 = fi := by simpa [dictGet] using hget
        have hvv : validateField reg p.1 p.2 input = Except.ok v := by
          rw [hfi]; exact hval
        simp [okOf, hvv, dictGet]
      · simp only [dictGet, hk, if_false] at hget
        simp only [List.map_cons, List.filterMap_cons, okOf, hr]
        simp only [dictGet, hk, if_false]
        exact ih name fi v herr hget hval

theorem rebuild_fields (reg : Registry) (full : List (String × Value)) :
    ∀ (fs : List (String × FieldInfo)) (vals : List (String × Value)),
      vals.map Prod.fst = fs.map Prod.fst →
      (∀ p ∈ vals, dictGet full p.1 = some p.2) →
      (∀ q ∈ fs, ∀ v, dictGet full q.1 = some v →
          validateField reg q.1 q.2 full = Except.ok v) →
      (fs.map (fun p => (p.1, validateField reg p.1 p.2 full))).filterMap okOf
          = vals ∧
      (fs.map (fun p => (p.1, validateField reg p.1 p.2 full))).filterMap errOf
          = [] := by
  intro fs
  induction fs with
  | nil =>
    intro vals hkeys _ _
    cases vals with
    | nil => exact ⟨rfl, rfl⟩
    | cons pv vals2 => simp at hkeys
  | cons q rest ih =>
    intro vals hkeys hvals hstab
    cases vals with
    | nil => simp at hkeys
    | cons pv vals2 =>
      simp only [List.map_cons, List.cons.injEq] at hkeys
      obtain ⟨hk1, hk2⟩ := hkeys
      have hv1 : dictGet full pv.1 = some pv.2 :=
        hvals pv (List.mem_cons_self _ _)
      have hq : validateField reg q.1 q.2 full = Except.ok pv.2 := by
        apply hstab q (List.mem_cons_self _ _)
        exact hk1 ▸ hv1
      have ihr := ih vals2 hk2
        (fun p hp => hvals p (List.mem_cons_of_mem _ hp))
        (fun p hp v hv => hstab p (List.mem_cons_of_mem _ hp) v hv)
      constructor
      · simp only [List.map_cons, List.filterMap_cons, okOf, hq]
        rw [ihr.1]
        congr 1
        rw [← hk1]
      · simp only [List.map_cons, List.filterMap_cons, errOf, hq]
        exact ihr.2

/-! ## Claim theorems -/

/-- Claim C1, counterexample: the claim states that dispatch skips the
registered validator exactly when the value is the sentinel or when it is
an explicit null AND the field is optional. On the code the optionality of
the field is never consulted: for the non optional field `fiC1req` with the
registered validator `cvX` attached, dispatch on an explicit null still
returns the raw null unchanged, although the claim demands the validator be
invoked, which would return the string X instead. -/
theorem C1_counterexample :
    apply_custom_validators regC1 fiC1req Value.vNone = Except.ok Value.vNone ∧
    fiC1req.isOptional = false ∧
    cvX Value.vNone (mergeArgs [] (extraC1.validator_args.getD []))
      = Except.ok (Value.vStr "X") ∧
    Value.vNone ≠ Value.vStr "X" :=
  ⟨rfl, rfl, rfl, by decide⟩

/-- Claim C1 (amended): for a field whose attached validator is registered,
dispatch skips invocation and returns the raw value unchanged exactly when
the raw value is the PydanticUndefined sentinel or an explicit null,
regardless of whether the field is optional; in every other case the
resolved validator is invoked on the value with the merged arguments. -/
theorem C1_skip_condition (reg : Registry) (field_info : FieldInfo)
    (extra : JsonSchemaExtra) (vname : String) (vfn : ValidatorFn)
    (dargs : Args) (value : Value)
    (hx : field_info.json_schema_extra = some extra)
    (hv : extra.validator = some vname)
    (hr : dictGet reg vname = some (vfn, dargs)) :
    apply_custom_validators reg field_info value =
      if value = Value.vUndef ∨ value = Value.vNone then Except.ok value
      else vfn value (mergeArgs dargs (extra.validator_args.getD [])) := by
  simp [apply_custom_validators, hx, hv, hr]

theorem C1_skip_condition_witness :
    apply_custom_validators regC1 fiC1req (Value.vStr "z")
      = Except.ok (Value.vStr "X") ∧
    apply_custom_validators regC1 fiC1req Value.vUndef
      = Except.ok Value.vUndef := by
  constructor
  · rw [C1_skip_condition regC1 fiC1req extraC1 "cv" cvX [] (Value.vStr "z")
      rfl rfl rfl]
    rw [if_neg (by decide)]
    rfl
  · rw [C1_skip_condition regC1 fiC1req extraC1 "cv" cvX [] Value.vUndef
      rfl rfl rfl]
    rw [if_pos (Or.inl rfl)]

/-- Claim C2: the merged argument mapping contains every key of the default
arguments, and the value for a key present in both mappings is taken from
the overrides. -/
theorem C2_merge_precedence (default_args extra_args : Args) (k : String)
    (v : Value) (h : dictGet default_args k = some v) :
    dictGet (mergeArgs default_args extra_args) k
      = some ((dictGet extra_args k).getD v) := by
  unfold mergeArgs
  have hmap : ∀ d : Args, dictGet d k = some v →
      dictGet (d.map (fun p => (p.1, (dictGet extra_args p.1).getD p.2))) k
        = some ((dictGet extra_args k).getD v) := by
    intro d
    induction d with
    | nil => intro h0; simp [dictGet] at h0
    | cons p rest ih =>
      intro h0
      by_cases hk : p.1 = k
      · subst hk
        simp [dictGet] at h0
        simp [dictGet, h0]
      · simp only [dictGet, hk, if_false, List.map_cons] at h0 ⊢
        exact ih h0
  exact dictGet_append_some (hmap default_args h)

theorem C2_merge_precedence_witness :
    dictGet (mergeArgs defaultsC2 overridesC2) "b" = some (Value.vInt 3) ∧
    dictGet (mergeArgs defaultsC2 overridesC2) "a" = some (Value.vInt 1) ∧
    mergeArgs defaultsC2 overridesC2
      = [("a", Value.vInt 1), ("b", Value.vInt 3)] :=
  ⟨C2_merge_precedence defaultsC2 overridesC2 "b" (Value.vInt 2) rfl,
   C2_merge_precedence defaultsC2 overridesC2 "a" (Value.vInt 1) rfl,
   by decide⟩

/-- Claim C5: a field whose attached validator name is not registered passes
the raw value through unmodified and produces no failure at dispatch. -/
theorem C5_dangling_validator (reg : Registry) (field_info : FieldInfo)
    (extra : JsonSchemaExtra) (vname : String) (value : Value)
    (hx : field_info.json_schema_extra = some extra)
    (hv : extra.validator = some vname)
    (hr : dictGet reg vname = none) :
    apply_custom_validators reg field_info value = Except.ok value := by
  simp [apply_custom_validators, hx, hv, hr]

theorem C5_dangling_validator_witness :
    apply_custom_validators [] fiC5 (Value.vStr "abc")
      = Except.ok (Value.vStr "abc") :=
  C5_dangling_validator [] fiC5 extraC5 "ghost" (Value.vStr "abc") rfl rfl rfl

/-- Claim C6: registering a second validator under an existing name replaces
the prior entry without error, and subsequent resolution of the name yields
the second function together with its default arguments. -/
theorem C6_register_override (reg : Registry) (name : String)
    (f1 f2 : ValidatorFn) (a1 a2 : Args) :
    dictGet (register_validator (register_validator reg name f1 a1) name f2 a2)
        name = some (f2, a2) := by
  unfold register_validator
  exact dictGet_dictInsert_self

/-- Claim C3: whenever one construction attempt fails, the single raised
batch is non empty and contains exactly one error record per offending
field, in declaration order; construction never stops at the first failing
field. -/
theorem C3_error_aggregation (reg : Registry) (schema : Schema)
    (input : List (String × Value)) (batch : List ErrorDetails)
    (h : model_validate reg schema input = Except.error batch) :
    batch ≠ [] ∧
    batch.map (fun e => e.loc)
      = (schema.fields.filter (failsOn reg input)).map (fun p => [p.1]) := by
  unfold model_validate at h
  split at h
  · exact Except.noConfusion h
  · next hemp =>
    have hb : batch
        = customize_errors schema.fields (rawErrors reg schema input) :=
      (Except.error.inj h).symm
    constructor
    · intro hnil
      rw [hnil] at hb
      cases hraw : rawErrors reg schema input with
      | nil => rw [hraw] at hemp; exact hemp rfl
      | cons e rest => rw [hraw] at hb; simp [customize_errors] at hb
    · rw [hb]
      rw [customize_errors_locs schema.fields (rawErrors reg schema input)]
      unfold rawErrors fieldResults
      exact results_error_locs reg input schema.fields

theorem C3_error_aggregation_witness :
    batchC3 ≠ [] ∧
    batchC3.map (fun e => e.loc) = [["F1"], ["F2"]] :=
  C3_error_aggregation [] schemaC3 [] batchC3 rfl

/-- Claim C4, counterexample: the claim states that any entry of the custom
message table for the failure kind replaces the message. For the table
mapping the int type failure to the empty string, the code keeps the
original message, because the Python truthiness guard on the custom message
is falsy for the empty string; the message is not replaced with the
configured custom text. -/
theorem C4_counterexample :
    customMessageFor fieldsC4empty
        { loc := ["F"], msg := "orig", type := "int_type", ctx := [] }
      = some "" ∧
    customize_error fieldsC4empty
        { loc := ["F"], msg := "orig", type := "int_type", ctx := [] }
      = { loc := ["F"], msg := "orig", type := "int_type", ctx := [] } ∧
    "orig" ≠ "" :=
  ⟨rfl, rfl, by decide⟩

/-- Claim C4 (amended): a failure whose field carries a custom message
table with a non empty entry for the failure kind has its message replaced
by the custom text while location, kind and context are preserved; a
failure without a matching entry is passed through as generated. An entry
whose text is the empty string is ignored, due to Python truthiness of the
guard on the custom message. -/
theorem C4_message_override (fields : List (String × FieldInfo))
    (e : ErrorDetails) :
    (∀ m, customMessageFor fields e = some m → m ≠ "" →
        customize_error fields e
          = { loc := e.loc, msg := m, type := e.type, ctx := e.ctx }) ∧
    (customMessageFor fields e = none → customize_error fields e = e) := by
  constructor
  · intro m hm hne
    simp [customize_error, hm, hne]
  · intro hm
    simp [customize_error, hm]

theorem C4_message_override_witness :
    customize_error fieldsC4 errC4
      = { loc := ["F"], msg := "bad format", type := "int_type",
          ctx := [("x", Value.vInt 1)] } ∧
    customize_error fieldsC4 errC4b = errC4b :=
  ⟨(C4_message_override fieldsC4 errC4).1 "bad format" rfl (by decide),
   (C4_message_override fieldsC4 errC4b).2 rfl⟩

/-- Claim C7: a field carrying a default and absent from the input
validates successfully to its default, and when the whole construction
succeeds the resulting instance holds the default at that field. -/
theorem C7_default_fill (reg : Registry) (schema : Schema)
    (input : List (String × Value)) (name : String) (fi : FieldInfo)
    (hfi : dictGet schema.fields name = some fi)
    (hdef : fi.default ≠ Value.vUndef)
    (hmiss : dictGet input name = none) :
    validateField reg name fi input = Except.ok fi.default ∧
    ∀ inst, model_validate reg schema input = Except.ok inst →
      dictGet inst.values name = some fi.default := by
  have hvf : validateField reg name fi input = Except.ok fi.default := by
    simp [validateField, hmiss, hdef]
  refine ⟨hvf, ?_⟩
  intro inst h
  unfold model_validate at h
  split at h
  · next hemp =>
    have hi : inst = { schema := schema, values := okValues reg schema input } :=
      (Except.ok.inj h).symm
    have hraw : rawErrors reg schema input = [] := by
      cases hr0 : rawErrors reg schema input with
      | nil => rfl
      | cons a b => rw [hr0] at hemp; simp at hemp
    rw [hi]
    exact okValues_dictGet reg input schema.fields name fi fi.default hraw hfi hvf
  · exact Except.noConfusion h

theorem C7_default_fill_witness :
    validateField [] "F" fiC7 [] = Except.ok (Value.vInt 7) ∧
    dictGet instC7.values "F" = some (Value.vInt 7) := by
  have h := C7_default_fill [] schemaC7 [] "F" fiC7 rfl (by decide) rfl
  exact ⟨h.1, h.2 instC7 rfl⟩

/-- Claim C8, counterexample: with the transforming validator `incFn`
attached, building from the input mapping F to 0 yields an instance whose
F is 1; dumping that instance and rebuilding yields an instance whose F is
2, so the round trip is not the identity field by field. -/
theorem C8_counterexample :
    model_validate regC8 schemaC8 [("F", Value.vInt 0)] = Except.ok instC8 ∧
    to_dict instC8 = [("F", Value.vInt 1)] ∧
    model_validate regC8 schemaC8 (to_dict instC8)
      = Except.ok { schema := schemaC8, values := [("F", Value.vInt 2)] } ∧
    dictGet instC8.values "F" ≠ some (Value.vInt 2) :=
  ⟨rfl, rfl, rfl, by decide⟩

/-- Claim C8 (amended): for a schema with unique field names, a valid
instance whose stored values each revalidate to themselves against the
instance dump, which holds in particular when no validators are attached
and the stored values are well typed, but fails for validators that
transform their input, rebuilds via the instance dump to an instance equal
to the original field by field. -/
theorem C8_round_trip (reg : Registry) (schema : Schema)
    (input : List (String × Value)) (inst : ModelInstance)
    (hnd : (schema.fields.map Prod.fst).Nodup)
    (hval : model_validate reg schema input = Except.ok inst)
    (hstab : ∀ q ∈ schema.fields, ∀ v, dictGet inst.values q.1 = some v →
        validateField reg q.1 q.2 inst.values = Except.ok v) :
    model_validate reg schema (to_dict inst) = Except.ok inst := by
  unfold model_validate at hval
  split at hval
  · next hemp =>
    have hi : inst = { schema := schema, values := okValues reg schema input } :=
      (Except.ok.inj hval).symm
    have hraw : rawErrors reg schema input = [] := by
      cases hr0 : rawErrors reg schema input with
      | nil => rfl
      | cons a b => rw [hr0] at hemp; simp at hemp
    have hkeys : inst.values.map Prod.fst = schema.fields.map Prod.fst := by
      rw [hi]
      exact okValues_keys reg input schema.fields hraw
    have hndv : (inst.values.map Prod.fst).Nodup := by rw [hkeys]; exact hnd
    have hmem : ∀ p ∈ inst.values, dictGet inst.values p.1 = some p.2 :=
      dictGet_of_mem_nodup inst.values hndv
    have hre := rebuild_fields reg inst.values schema.fields inst.values hkeys
      hmem hstab
    have hraw2 : rawErrors reg schema (to_dict inst) = [] := hre.2
    have hok2 : okValues reg schema (to_dict inst) = inst.values := hre.1
    have hs : inst.schema = schema := by rw [hi]
    unfold model_validate
    rw [hraw2, hok2, ← hs]
    rfl
  · exact Except.noConfusion hval

theorem C8_round_trip_witness :
    model_validate [] schemaC8w (to_dict instC8w) = Except.ok instC8w := by
  apply C8_round_trip [] schemaC8w [("F", Value.vStr "x")] instC8w
  · decide
  · rfl
  · intro q hq v hv
    have hq2 : q = ("F", ({ typeTag := TypeTag.tStr } : FieldInfo)) := by
      simpa [schemaC8w] using hq
    subst hq2
    have hv2 : Value.vStr "x" = v := by
      have h0 : (some (Value.vStr "x") : Option Value) = some v := by
        rw [← hv]
        rfl
      exact Option.some.inj h0
    subst hv2
    rfl

/-- Claim C9: setting a field value through the named indexed accessor
raises a KeyError exactly when the name is not a schema field; for a schema
field the raw value is stored verbatim, without invoking any attached
validator (the operation consults neither the registry nor the validator
metadata). -/
theorem C9_setitem (inst : ModelInstance) (name : String) (value : Value) :
    (dictGet inst.schema.fields name = none →
        setitem inst name value
          = Except.error ("Field " ++ name ++ " not found")) ∧
    (dictGet inst.schema.fields name ≠ none →
        setitem inst name value
          = Except.ok { inst with values := dictInsert inst.values name value } ∧
        dictGet (dictInsert inst.values name value) name = some value) := by
  constructor
  · intro h
    simp [setitem, h]
  · intro h
    have hs : (dictGet inst.schema.fields name).isSome = true :=
      Option.ne_none_iff_isSome.mp h
    exact ⟨by simp [setitem, hs], dictGet_dictInsert_self⟩

theorem C9_setitem_witness :
    setitem instC9 "F" (Value.vInt 5)
      = Except.ok { schema := schemaC9, values := [("F", Value.vInt 5)] } ∧
    setitem instC9 "G" (Value.vInt 5) = Except.error "Field G not found" :=
  ⟨((C9_setitem instC9 "F" (Value.vInt 5)).2 (by decide)).1,
   (C9_setitem instC9 "G" (Value.vInt 5)).1 rfl⟩

/-- Claim C10: bulk update silently ignores keys that are not schema fields
(no error is raised and no new entry is created), and every schema field
not named in the update mapping keeps its previous value; the schema itself
is unchanged. -/
theorem C10_update_frame (inst : ModelInstance) (data : List (String × Value)) :
    (update inst data).schema = inst.schema ∧
    (∀ k, dictGet inst.schema.fields k = none →
        dictGet (update inst data).values k = dictGet inst.values k) ∧
    (∀ k, k ∉ data.map Prod.fst →
        dictGet (update inst data).values k = dictGet inst.values k) := by
  induction data generalizing inst with
  | nil => exact ⟨rfl, fun _ _ => rfl, fun _ _ => rfl⟩
  | cons p rest ih =>
    by_cases hp : (dictGet inst.schema.fields p.1).isSome = true
    · have hstep : update inst (p :: rest)
          = update { inst with values := dictInsert inst.values p.1 p.2 } rest := by
        simp only [update, List.foldl_cons]
        simp [hp]
      obtain ⟨ihs, ihf, ihd⟩ :=
        ih { inst with values := dictInsert inst.values p.1 p.2 }
      refine ⟨?_, ?_, ?_⟩
      · rw [hstep, ihs]
      · intro k hk
        rw [hstep, ihf k hk]
        apply dictGet_dictInsert_ne
        intro he
        rw [he] at hk
        rw [hk] at hp
        simp at hp
      · intro k hk
        simp only [List.map_cons, List.mem_cons, not_or] at hk
        rw [hstep, ihd k hk.2]
        exact dictGet_dictInsert_ne hk.1
    · have hstep : update inst (p :: rest) = update inst rest := by
        simp only [update, List.foldl_cons]
        simp [hp]
      obtain ⟨ihs, ihf, ihd⟩ := ih inst
      refine ⟨?_, ?_, ?_⟩
      · rw [hstep, ihs]
      · intro k hk
        rw [hstep, ihf k hk]
      · intro k hk
        simp only [List.map_cons, List.mem_cons, not_or] at hk
        rw [hstep, ihd k hk.2]

theorem C10_update_frame_witness :
    dictGet (update instC10 dataC10).values "Z" = none ∧
    dictGet (update instC10 dataC10).values "B" = some (Value.vInt 2) ∧
    (update instC10 dataC10).schema = instC10.schema := by
  have h := C10_update_frame instC10 dataC10
  refine ⟨?_, ?_, h.1⟩
  · rw [h.2.1 "Z" rfl]
    rfl
  · rw [h.2.2 "B" (by decide)]
    rfl

end SanicAgent
